import Mathlib

/-!
Verification of the undo/redo event-recording core of the `ox` editor
(`src/undo.rs`): the `Event` vocabulary, the `EventStack` patch container
and the `reverse` inversion function, embedded shallowly in Lean.

Rust `Vec` operations are modelled on `List`:
`Vec::push` appends at the end, `Vec::pop` removes the last element,
`Vec::insert(0, x)` prepends, `Vec::clear` empties.  `Box<T>` is the
identity on `T`.  `usize` is modelled as `Nat` together with an explicit
saturating increment capped at `2^64 - 1`.
-/

/-- Modelled from the spec: the cursor/position model is supplied by the
surrounding editor (`crate::Position`, not part of this core); a text
position with two coordinates, used here only as an opaque payload. -/
structure Position where
  x : Nat
  y : Nat
deriving DecidableEq

/-- Modelled from the spec: the direction payload of a cursor move
(`crate::Direction`, not part of this core); opaque payload here. -/
inductive Direction where
  | up
  | down
  | left
  | right
deriving DecidableEq

/-- Modelled from the spec: a row snapshot is an immutable, independently
owned copy of a line's content (`crate::Row`, not part of this core). -/
structure Row where
  text : String
deriving DecidableEq

/-- Modelled from the spec: `Row::from("...")` builds a row snapshot from
string content; `Row.ofString ""` is the empty row. -/
def Row.ofString (s : String) : Row :=
  { text := s }

/-- `BankType` from `src/undo.rs`: the kinds of scratch banks. -/
inductive BankType where
  | Line
  | Cursor
deriving DecidableEq

/-- The `Event` enum from `src/undo.rs`, one constructor per variant,
with the same payloads (`Box<Row>` flattened to `Row`, `i128` to `Int`,
`usize` to `Nat`, `char` to `Char`). -/
inductive Event where
  | Store : BankType → Nat → Event
  | Load : BankType → Nat → Event
  | SpliceUp : Position → Event
  | SplitDown : Position → Event
  | InsertLineAbove : Nat → Event
  | InsertLineBelow : Nat → Event
  | Deletion : Position → Char → Event
  | Insertion : Position → Char → Event
  | DeleteLine : Nat → Row → Event
  | UpdateLine : Nat → Row → Row → Event
  | MoveCursor : Int → Direction → Event
  | GotoCursor : Position → Event
  | Overwrite : List Row → List Row → Event
  | New : Event
  | Open : Option String → Event
  | Save : Option String → Bool → Event
  | SaveAll : Event
  | Undo : Event
  | Redo : Event
  | Commit : Event
  | Quit : Bool → Event
  | QuitAll : Bool → Event
  | NextTab : Event
  | PrevTab : Event
deriving DecidableEq

/-- The largest representable `usize` value (64-bit target). -/
def usizeMax : Nat := 2 ^ 64 - 1

/-- `usize::saturating_add` on the `Nat` model: the sum capped at
`usizeMax` instead of wrapping or panicking. -/
def saturatingAdd (a b : Nat) : Nat :=
  min (a + b) usizeMax

/-- The `EventStack` struct from `src/undo.rs`: committed patch history
plus the current (pending) patch. -/
structure EventStack where
  history : List (List Event)
  current_patch : List Event
deriving DecidableEq

/-- `EventStack::new`: both sequences start empty. -/
def EventStack.new : EventStack :=
  { history := [], current_patch := [] }

/-- `EventStack::push`: `self.current_patch.insert(0, event)` — the event
is inserted at the front of the pending patch. -/
def EventStack.push (s : EventStack) (event : Event) : EventStack :=
  { s with current_patch := event :: s.current_patch }

/-- `EventStack::append`: `self.history.push(patch)` — the patch becomes
the new last entry of the history. -/
def EventStack.append (s : EventStack) (patch : List Event) : EventStack :=
  { s with history := s.history ++ [patch] }

/-- `EventStack::pop`: `self.history.pop()` — removes and returns the last
history entry, modelled as the returned option paired with the updated
stack. -/
def EventStack.pop (s : EventStack) : Option (List Event) × EventStack :=
  (s.history.getLast?, { s with history := s.history.dropLast })

/-- `EventStack::empty`: `self.history.clear()` — discards the committed
history, leaving the pending patch untouched. -/
def EventStack.empty (s : EventStack) : EventStack :=
  { s with history := [] }

/-- `EventStack::commit`: if the pending patch is non-empty, push a copy
of it as the new last history entry and clear it; otherwise do nothing. -/
def EventStack.commit (s : EventStack) : EventStack :=
  if s.current_patch.isEmpty then s
  else { history := s.history ++ [s.current_patch], current_patch := [] }

/-- `reverse` from `src/undo.rs`: maps an event to its optional inverse;
the wildcard arm returns `None`. -/
def reverse (before : Event) : Option Event :=
  match before with
  | Event.SpliceUp pos => some (Event.SplitDown pos)
  | Event.SplitDown pos => some (Event.SplitDown pos)
  | Event.InsertLineAbove y => some (Event.DeleteLine y (Row.ofString ""))
  | Event.InsertLineBelow y =>
      some (Event.DeleteLine (saturatingAdd y 1) (Row.ofString ""))
  | Event.Deletion pos ch => some (Event.Insertion pos ch)
  | Event.Insertion pos ch => some (Event.Deletion pos ch)
  | Event.DeleteLine y b => some (Event.UpdateLine y (Row.ofString "") b)
  | Event.UpdateLine y b a => some (Event.UpdateLine y a b)
  | Event.Overwrite b a => some (Event.Overwrite a b)
  | _ => none

/-- The set of variants the spec declares non-invertible, as a Boolean
predicate over `Event` (from the spec's words, for comparison with
`reverse`). -/
def nonInvertible (e : Event) : Bool :=
  match e with
  | Event.Store _ _ => true
  | Event.Load _ _ => true
  | Event.MoveCursor _ _ => true
  | Event.GotoCursor _ => true
  | Event.New => true
  | Event.Open _ => true
  | Event.Save _ _ => true
  | Event.SaveAll => true
  | Event.Undo => true
  | Event.Redo => true
  | Event.Commit => true
  | Event.Quit _ => true
  | Event.QuitAll _ => true
  | Event.NextTab => true
  | Event.PrevTab => true
  | _ => false

/-- Record a list of events one by one via `EventStack.push`. -/
def recordAll (s : EventStack) (es : List Event) : EventStack :=
  es.foldl EventStack.push s

/-- Claim C1: `reverse` swaps the before/after payloads on the paired
variants: `Insertion`/`Deletion` invert each other, and `UpdateLine` and
`Overwrite` swap their two snapshots. -/
theorem reverse_involution_pairs (p : Position) (c : Char) (y : Nat)
    (b a : Row) (bs as : List Row) :
    reverse (Event.Insertion p c) = some (Event.Deletion p c) ∧
    reverse (Event.Deletion p c) = some (Event.Insertion p c) ∧
    reverse (Event.UpdateLine y b a) = some (Event.UpdateLine y a b) ∧
    reverse (Event.Overwrite bs as) = some (Event.Overwrite as bs) :=
  ⟨rfl, rfl, rfl, rfl⟩

/-- Claim C2: `reverse` sends `DeleteLine(y, r)` to
`UpdateLine(y, empty-row, r)`, `InsertLineAbove(y)` to
`DeleteLine(y, empty-row)`, and `InsertLineBelow(y)` to
`DeleteLine(y+1, empty-row)` where the increment saturates at the
maximum representable index, so at `usizeMax` the inverse index stays
`usizeMax`. -/
theorem reverse_line_lifecycle (y : Nat) (r : Row) :
    reverse (Event.DeleteLine y r) =
      some (Event.UpdateLine y (Row.ofString "") r) ∧
    reverse (Event.InsertLineAbove y) =
      some (Event.DeleteLine y (Row.ofString "")) ∧
    reverse (Event.InsertLineBelow y) =
      some (Event.DeleteLine (saturatingAdd y 1) (Row.ofString "")) ∧
    saturatingAdd y 1 = min (y + 1) usizeMax ∧
    saturatingAdd usizeMax 1 = usizeMax := by
  refine ⟨rfl, rfl, rfl, rfl, ?_⟩
  simp [saturatingAdd, usizeMax]

/-- Claim C3: `reverse` maps `SpliceUp(p)` to `SplitDown(p)` and
`SplitDown(p)` to itself — the asymmetric pairing of the source is
reproduced exactly. -/
theorem reverse_spliceUp_splitDown (p : Position) :
    reverse (Event.SpliceUp p) = some (Event.SplitDown p) ∧
    reverse (Event.SplitDown p) = some (Event.SplitDown p) :=
  ⟨rfl, rfl⟩

/-- Claim C4: `reverse` is total and returns `none` exactly on the
non-invertible variants (`Store`, `Load`, `MoveCursor`, `GotoCursor`,
`New`, `Open`, `Save`, `SaveAll`, `Undo`, `Redo`, `Commit`, `Quit`,
`QuitAll`, `NextTab`, `PrevTab`). -/
theorem reverse_none_iff_nonInvertible (e : Event) :
    reverse e = none ↔ nonInvertible e = true := by
  cases e <;> simp [reverse, nonInvertible]

/-- Claim C5: recording inserts at the front of the pending patch, so
after `record(A); record(B); record(C); commit()`, `pop` returns the
single patch `[C, B, A]` (newest first). -/
theorem record_order_newest_first (A B C : Event) :
    (EventStack.pop
      (EventStack.commit
        (EventStack.push (EventStack.push (EventStack.push
          EventStack.new A) B) C))).1 = some [C, B, A] :=
  rfl

lemma recordAll_eq (es : List Event) (s : EventStack) :
    recordAll s es =
      { history := s.history, current_patch := es.reverse ++ s.current_patch } := by
  induction es generalizing s with
  | nil => simp [recordAll]
  | cons e es ih =>
      have h : recordAll s (e :: es) = recordAll (s.push e) es := rfl
      rw [h, ih]
      simp [EventStack.push]

lemma commit_cons (h : List (List Event)) (e : Event) (p : List Event) :
    EventStack.commit { history := h, current_patch := e :: p } =
      { history := h ++ [e :: p], current_patch := [] } := by
  simp [EventStack.commit]

/-- Build a stack by recording and committing three patches in order;
each patch is recorded event-by-event in reverse so the pending patch
equals the patch when committed. -/
def threeCommits (P1 P2 P3 : List Event) : EventStack :=
  EventStack.commit (recordAll
    (EventStack.commit (recordAll
      (EventStack.commit (recordAll EventStack.new P1.reverse))
      P2.reverse))
    P3.reverse)

/-- Claim C6: `pop` removes and returns the last committed patch, returns
`none` on a fresh stack, and never touches the pending patch; after
committing three (non-empty, here of shape head-cons-tail) patches in
order, successive pops return them newest first. -/
theorem pop_lifo (a b c : Event) (ta tb tc : List Event) :
    (EventStack.pop EventStack.new).1 = none ∧
    (EventStack.pop EventStack.new).2 = EventStack.new ∧
    (∀ s : EventStack,
      (EventStack.pop s).2.current_patch = s.current_patch) ∧
    (EventStack.pop (threeCommits (a :: ta) (b :: tb) (c :: tc))).1 =
      some (c :: tc) ∧
    (EventStack.pop
      (EventStack.pop (threeCommits (a :: ta) (b :: tb) (c :: tc))).2).1 =
      some (b :: tb) ∧
    (EventStack.pop (EventStack.pop
      (EventStack.pop (threeCommits (a :: ta) (b :: tb) (c :: tc))).2).2).1 =
      some (a :: ta) ∧
    (EventStack.pop (EventStack.pop (EventStack.pop
      (EventStack.pop (threeCommits (a :: ta) (b :: tb) (c :: tc))).2).2).2).1 =
      none := by
  have h3 : threeCommits (a :: ta) (b :: tb) (c :: tc) =
      { history := [a :: ta, b :: tb, c :: tc], current_patch := [] } := by
    simp [threeCommits, recordAll_eq, EventStack.new, commit_cons]
  refine ⟨rfl, rfl, fun s => rfl, ?_, ?_, ?_, ?_⟩ <;>
    rw [h3] <;> rfl

/-- Claim C7: `commit` is idempotent — a second consecutive `commit` with
no recording in between leaves the stack exactly as after the first. -/
theorem commit_idempotent (s : EventStack) :
    (EventStack.commit s).commit = EventStack.commit s := by
  by_cases hp : s.current_patch.isEmpty <;>
    simp [EventStack.commit, hp]

/-- Claim C8: `empty` (clear) discards all committed history but leaves
the pending patch intact; in particular `record(X); clear(); commit()`
yields a history of exactly one patch `[X]`. -/
theorem clear_preserves_pending (s : EventStack) (X : Event) :
    (EventStack.empty s).history = [] ∧
    (EventStack.empty s).current_patch = s.current_patch ∧
    (EventStack.commit
      (EventStack.empty (EventStack.push EventStack.new X))).history =
      [[X]] :=
  ⟨rfl, rfl, rfl⟩

/-- Claim C9, counterexample: `append` is a public `EventStack` operation
other than `commit` that adds an entry to `history` — appending a patch
to a fresh stack grows the history from zero entries to one. -/
theorem append_adds_history_entry :
    (EventStack.append EventStack.new []).history ≠
      EventStack.new.history ∧
    (EventStack.append EventStack.new []).history.length =
      EventStack.new.history.length + 1 := by
  refine ⟨?_, rfl⟩
  simp [EventStack.append, EventStack.new]

/-- Claim C9, amended: `commit` and `append` are the only operations that
add entries to `history` (and both only append at the end), `pop` only
removes the final entry, `empty` (clear) discards all entries, and `push`
leaves `history` untouched — there are no other mutation paths. -/
theorem history_mutation_paths (s : EventStack) (e : Event)
    (p : List Event) :
    (EventStack.push s e).history = s.history ∧
    (EventStack.append s p).history = s.history ++ [p] ∧
    (∃ t : List (List Event),
      (EventStack.commit s).history = s.history ++ t) ∧
    (EventStack.pop s).2.history ++ ((EventStack.pop s).1).toList =
      s.history ∧
    (EventStack.empty s).history = [] := by
  refine ⟨rfl, rfl, ?_, ?_, rfl⟩
  · by_cases hp : s.current_patch.isEmpty
    · exact ⟨[], by simp [EventStack.commit, hp]⟩
    · exact ⟨[s.current_patch], by simp [EventStack.commit, hp]⟩
  · rcases eq_or_ne s.history [] with h | h
    · simp [EventStack.pop, h]
    · simp [EventStack.pop, List.getLast?_eq_getLast _ h,
        List.dropLast_append_getLast h]

/-- Claim C10: `push` (record) modifies only the pending patch — the
committed history is exactly the same sequence of patches afterwards,
while the event lands at the front of the pending patch. -/
theorem push_preserves_history (s : EventStack) (e : Event) :
    (EventStack.push s e).history = s.history ∧
    (EventStack.push s e).current_patch = e :: s.current_patch :=
  ⟨rfl, rfl⟩
